import Mathlib

/-!
# StockAlert JS SDK — verification of the request engine and webhook subsystem

Shallow embedding of the SDK's core (request execution engine, rate-limit
state, GET deduplication, client-config validation, webhook signature
verification and payload parsing), translated from `src/resources/base.ts`,
`src/client.ts` and `src/resources/webhooks.ts`.

Modelling conventions:
* JS byte strings (UTF-8 payloads, HMAC keys, Buffers) are `List Nat` with
  entries below 256; signatures (header values) are `List Char`.
* Machine integers are `Nat` with explicit `% 2^32` where the SHA-256
  arithmetic overflows; JSON numbers are modelled as integers (`Int`), the
  fragment every claim instance lives in.
* Stateful code (pending-request registry, rate-limit map) is explicit state
  passing over association lists; promises are numeric identifiers.
* Fallible code returns `Except SdkError` / `Option`.
-/

namespace StockAlertSdk

/-! ## SHA-256 and HMAC-SHA256 (the `crypto` module calls in webhooks.ts) -/

/-- Truncation to a 32-bit word. -/
def w32 (n : Nat) : Nat := n % 4294967296

/-- 32-bit right rotation by `k`. -/
def rotr (k x : Nat) : Nat := w32 ((x >>> k) ||| (x <<< (32 - k)))

def shaCh (x y z : Nat) : Nat := (x &&& y) ^^^ ((x ^^^ 4294967295) &&& z)

def shaMaj (x y z : Nat) : Nat := (x &&& y) ^^^ (x &&& z) ^^^ (y &&& z)

def bigS0 (x : Nat) : Nat := rotr 2 x ^^^ rotr 13 x ^^^ rotr 22 x

def bigS1 (x : Nat) : Nat := rotr 6 x ^^^ rotr 11 x ^^^ rotr 25 x

def smallS0 (x : Nat) : Nat := rotr 7 x ^^^ rotr 18 x ^^^ (x >>> 3)

def smallS1 (x : Nat) : Nat := rotr 17 x ^^^ rotr 19 x ^^^ (x >>> 10)

/-- The 64 SHA-256 round constants. -/
def shaK : List Nat :=
  [1116352408, 1899447441, 3049323471, 3921009573,
   961987163, 1508970993, 2453635748, 2870763221,
   3624381080, 310598401, 607225278, 1426881987,
   1925078388, 2162078206, 2614888103, 3248222580,
   3835390401, 4022224774, 264347078, 604807628,
   770255983, 1249150122, 1555081692, 1996064986,
   2554220882, 2821834349, 2952996808, 3210313671,
   3336571891, 3584528711, 113926993, 338241895,
   666307205, 773529912, 1294757372, 1396182291,
   1695183700, 1986661051, 2177026350, 2456956037,
   2730485921, 2820302411, 3259730800, 3345764771,
   3516065817, 3600352804, 4094571909, 275423344,
   430227734, 506948616, 659060556, 883997877,
   958139571, 1322822218, 1537002063, 1747873779,
   1955562222, 2024104815, 2227730452, 2361852424,
   2428436474, 2756734187, 3204031479, 3329325298]

/-- SHA-256 working state: eight 32-bit words. -/
structure Hsh where
  a : Nat
  b : Nat
  c : Nat
  d : Nat
  e : Nat
  f : Nat
  g : Nat
  h : Nat

def shaInit : Hsh :=
  ⟨1779033703, 3144134277, 1013904242, 2773480762,
   1359893119, 2600822924, 528734635, 1541459225⟩

/-- Extend the 16 block words by `k` further message-schedule words. -/
def schedExtend : Nat → List Nat → List Nat
  | 0, acc => acc
  | k + 1, acc =>
    let n := acc.length
    let wA := acc.getD (n - 16) 0
    let wB := acc.getD (n - 15) 0
    let wC := acc.getD (n - 7) 0
    let wD := acc.getD (n - 2) 0
    schedExtend k (acc ++ [w32 (smallS1 wD + wC + smallS0 wB + wA)])

def shaRound (st : Hsh) (kw : Nat × Nat) : Hsh :=
  let t1 := w32 (st.h + bigS1 st.e + shaCh st.e st.f st.g + kw.1 + kw.2)
  let t2 := w32 (bigS0 st.a + shaMaj st.a st.b st.c)
  ⟨w32 (t1 + t2), st.a, st.b, st.c, w32 (st.d + t1), st.e, st.f, st.g⟩

def compress (st : Hsh) (block : List Nat) : Hsh :=
  let ws := schedExtend 48 block
  let r := (shaK.zip ws).foldl shaRound st
  ⟨w32 (st.a + r.a), w32 (st.b + r.b), w32 (st.c + r.c), w32 (st.d + r.d),
   w32 (st.e + r.e), w32 (st.f + r.f), w32 (st.g + r.g), w32 (st.h + r.h)⟩

/-- Big-endian bytes to 32-bit words, four bytes per word. -/
def bytesToWords : List Nat → List Nat
  | b0 :: b1 :: b2 :: b3 :: rest => (((b0 * 256 + b1) * 256 + b2) * 256 + b3) :: bytesToWords rest
  | _ => []

/-- Split into 64-byte blocks (fuel-structured so the kernel can evaluate it). -/
def chunkAux : Nat → List Nat → List (List Nat)
  | 0, _ => []
  | _, [] => []
  | fuel + 1, b :: rest => ((b :: rest).take 64) :: chunkAux fuel ((b :: rest).drop 64)

def chunk64 (l : List Nat) : List (List Nat) := chunkAux (l.length + 1) l

/-- SHA-256 padding: 0x80, zeros to 56 mod 64, then the 8-byte bit length. -/
def shaPad (msg : List Nat) : List Nat :=
  let len := msg.length
  let zeros := (119 - len % 64) % 64
  let bits := len * 8
  msg ++ 128 :: List.replicate zeros 0 ++
    [(bits >>> 56) % 256, (bits >>> 48) % 256, (bits >>> 40) % 256, (bits >>> 32) % 256,
     (bits >>> 24) % 256, (bits >>> 16) % 256, (bits >>> 8) % 256, bits % 256]

/-- A 32-bit word as four big-endian bytes. -/
def wordBytes (w : Nat) : List Nat :=
  [(w >>> 24) % 256, (w >>> 16) % 256, (w >>> 8) % 256, w % 256]

def digestBytes (st : Hsh) : List Nat :=
  wordBytes st.a ++ wordBytes st.b ++ wordBytes st.c ++ wordBytes st.d ++
    wordBytes st.e ++ wordBytes st.f ++ wordBytes st.g ++ wordBytes st.h

def shaCore (msg : List Nat) : Hsh :=
  (chunk64 (shaPad msg)).foldl (fun st block => compress st (bytesToWords block)) shaInit

/-- SHA-256 of a byte string, as its 32 digest bytes. -/
def sha256 (msg : List Nat) : List Nat := digestBytes (shaCore msg)

/-- HMAC-SHA256 (`crypto.createHmac('sha256', secret)`), 64-byte block size:
an over-long key is replaced by its hash, the key is zero-padded to the block
size, and the digest is `H(opad ‖ H(ipad ‖ msg))`. -/
def hmacSHA256 (key msg : List Nat) : List Nat :=
  let k0 := if 64 < key.length then sha256 key else key
  let kp := k0 ++ List.replicate (64 - k0.length) 0
  sha256 ((kp.map (fun b => b ^^^ 92)) ++ sha256 ((kp.map (fun b => b ^^^ 54)) ++ msg))

/-- Bytes of a Lean string, via the code points (faithful to UTF-8 on the
ASCII fragment all concrete inputs live in). -/
def strBytes (s : String) : List Nat := s.toList.map Char.toNat

/-! ## Hex encoding and Node's lenient hex decoding -/

/-- Lowercase hex digit for `d < 16` (as `Buffer.toString('hex')` emits). -/
def hexDigitChar (d : Nat) : Char :=
  if d < 10 then Char.ofNat (48 + d) else Char.ofNat (87 + d)

def hexEncode : List Nat → List Char
  | [] => []
  | b :: bs => hexDigitChar (b / 16) :: hexDigitChar (b % 16) :: hexEncode bs

def hexVal (c : Char) : Option Nat :=
  if '0' ≤ c ∧ c ≤ '9' then some (c.toNat - 48)
  else if 'a' ≤ c ∧ c ≤ 'f' then some (c.toNat - 87)
  else if 'A' ≤ c ∧ c ≤ 'F' then some (c.toNat - 55)
  else none

/-- `Buffer.from(_, 'hex')` in Node: decode two-character pairs left to right,
stop silently at the first pair that is not valid hex, drop a trailing lone
nibble. -/
def nodeHexDecode : List Char → List Nat
  | c1 :: c2 :: rest =>
    match hexVal c1, hexVal c2 with
    | some hi, some lo => (16 * hi + lo) :: nodeHexDecode rest
    | _, _ => []
  | _ => []

/-! ## The signature verifier (`WebhooksResource.verifySignature`) -/

/-- Strip an optional `sha256=` marker from the signature header value. -/
def sigNormalize (sig : List Char) : List Char :=
  if ("sha256=".toList).isPrefixOf sig then sig.drop 7 else sig

/-- The signing input: `"{timestamp}.{payload}"` when a (non-empty) timestamp
is supplied, else the payload alone.  `none` covers `undefined`/`null`. -/
def signingPayload (timestamp : Option (List Nat)) (body : List Nat) : List Nat :=
  match timestamp with
  | none => body
  | some t => if t = [] then body else t ++ 46 :: body

/-- A `string | Buffer` payload as JavaScript sees it: the byte content plus
which of the two runtime types carries it. -/
inductive JsPayload where
  | str (bytes : List Nat)
  | buf (bytes : List Nat)
deriving DecidableEq

/-- The body bytes the verifier hashes: a string directly, a Buffer via
`payload.toString('utf8')` (byte-identical for the ASCII payloads modelled
here). -/
def JsPayload.body : JsPayload → List Nat
  | .str bs => bs
  | .buf bs => bs

/-- JS truthiness of the `!payload` guard: only the empty *string* is falsy —
a Buffer is an object, and objects are truthy even when empty. -/
def JsPayload.falsy : JsPayload → Bool
  | .str [] => true
  | _ => false

/-- `WebhooksResource.verifySignature`, translated clause by clause:
falsy-payload (`!payload`) / empty-signature / empty-secret guards, marker
stripping, HMAC of the signing payload, hex decoding of both sides (Node
semantics), length fail-fast, then (timing-safe) equality. -/
def verifySignature (payload : JsPayload) (signature : List Char) (secret : List Nat)
    (timestamp : Option (List Nat)) : Bool :=
  if payload.falsy = true ∨ signature.length = 0 ∨ secret.length = 0 then false
  else
    let normalized := sigNormalize signature
    if normalized.length = 0 then false
    else
      let providedBytes := nodeHexDecode normalized
      let expectedBytes :=
        nodeHexDecode (hexEncode (hmacSHA256 secret (signingPayload timestamp payload.body)))
      if providedBytes.length ≠ expectedBytes.length then false
      else providedBytes == expectedBytes

/-- `sign(P, S)`: the hex HMAC-SHA256 the sender computes (the spec's `sign`,
identical to the verifier's `expectedSignature` expression). -/
def signWebhook (secret : List Nat) (timestamp : Option (List Nat)) (payload : List Nat) :
    List Char :=
  hexEncode (hmacSHA256 secret (signingPayload timestamp payload))

/-! ### Structural facts about the digest and hex codec -/

theorem wordBytes_lt (w : Nat) : ∀ b ∈ wordBytes w, b < 256 := by
  intro b hb
  simp only [wordBytes, List.mem_cons, List.not_mem_nil, or_false] at hb
  rcases hb with rfl | rfl | rfl | rfl <;> omega

theorem digestBytes_lt (st : Hsh) : ∀ b ∈ digestBytes st, b < 256 := by
  intro b hb
  simp only [digestBytes, List.mem_append] at hb
  rcases hb with ((((((h | h) | h) | h) | h) | h) | h) | h <;> exact wordBytes_lt _ _ h

theorem digestBytes_length (st : Hsh) : (digestBytes st).length = 32 := by
  simp [digestBytes, wordBytes]

theorem sha256_lt (msg : List Nat) : ∀ b ∈ sha256 msg, b < 256 := digestBytes_lt _

theorem sha256_length (msg : List Nat) : (sha256 msg).length = 32 := digestBytes_length _

theorem hmacSHA256_lt (key msg : List Nat) : ∀ b ∈ hmacSHA256 key msg, b < 256 := by
  intro b hb
  simp only [hmacSHA256] at hb
  exact sha256_lt _ b hb

theorem hmacSHA256_length (key msg : List Nat) : (hmacSHA256 key msg).length = 32 := by
  simp only [hmacSHA256]
  exact sha256_length _

theorem hexVal_hexDigitChar : ∀ d < 16, hexVal (hexDigitChar d) = some d := by decide

theorem nodeHexDecode_hexEncode : ∀ bs : List Nat, (∀ b ∈ bs, b < 256) →
    nodeHexDecode (hexEncode bs) = bs
  | [], _ => rfl
  | b :: bs, h => by
    have hb : b < 256 := h b (List.mem_cons_self ..)
    have h1 : hexVal (hexDigitChar (b / 16)) = some (b / 16) :=
      hexVal_hexDigitChar _ (by omega)
    have h2 : hexVal (hexDigitChar (b % 16)) = some (b % 16) :=
      hexVal_hexDigitChar _ (by omega)
    have ih := nodeHexDecode_hexEncode bs (fun x hx => h x (List.mem_cons_of_mem _ hx))
    simp only [hexEncode, nodeHexDecode, h1, h2, ih]
    congr 1
    omega

theorem hexEncode_length (bs : List Nat) : (hexEncode bs).length = 2 * bs.length := by
  induction bs with
  | nil => rfl
  | cons b bs ih => simp [hexEncode, ih]; omega

theorem hexDigitChar_ne_s : ∀ d < 16, hexDigitChar d ≠ 's' := by decide

/-- A hex-encoded digest never carries the `sha256=` marker, so stripping it
is the identity. -/
theorem sigNormalize_hexEncode (bs : List Nat) (hlt : ∀ b ∈ bs, b < 256) :
    sigNormalize (hexEncode bs) = hexEncode bs := by
  unfold sigNormalize
  cases bs with
  | nil => simp [hexEncode, List.isPrefixOf]
  | cons b rest =>
    have hb : b / 16 < 16 := by have := hlt b (List.mem_cons_self ..); omega
    have hs := hexDigitChar_ne_s _ hb
    have hto : "sha256=".toList = 's' :: "ha256=".toList := rfl
    simp only [hexEncode, hto]
    rw [if_neg]
    simp only [List.isPrefixOf, Bool.and_eq_true, beq_iff_eq]
    rintro ⟨hhead, _⟩
    exact hs hhead.symm

/-- Complete characterization of the verifier: it never throws (it is a total
function), and it returns `true` exactly when the payload is truthy (any
Buffer, or a non-empty string), signature and secret are non-empty, and the
signature's leading valid hex pairs decode to the expected HMAC. -/
theorem verifySignature_true_iff (p : JsPayload) (sig : List Char) (k : List Nat)
    (t : Option (List Nat)) :
    verifySignature p sig k t = true ↔
      p.falsy = false ∧ sig ≠ [] ∧ k ≠ [] ∧
        nodeHexDecode (sigNormalize sig) = hmacSHA256 k (signingPayload t p.body) := by
  have hdec : nodeHexDecode (hexEncode (hmacSHA256 k (signingPayload t p.body)))
      = hmacSHA256 k (signingPayload t p.body) :=
    nodeHexDecode_hexEncode _ (hmacSHA256_lt _ _)
  have hlen : (hmacSHA256 k (signingPayload t p.body)).length = 32 := hmacSHA256_length _ _
  unfold verifySignature
  rw [hdec]
  by_cases h1 : p.falsy = true ∨ sig.length = 0 ∨ k.length = 0
  · rw [if_pos h1]
    simp only [Bool.false_eq_true, false_iff]
    rintro ⟨hp, hs, hk, _⟩
    rcases h1 with h | h | h
    · rw [hp] at h
      exact Bool.false_ne_true h
    · exact hs (List.length_eq_zero.mp h)
    · exact hk (List.length_eq_zero.mp h)
  · rw [if_neg h1]
    push_neg at h1
    obtain ⟨hp, hs, hk⟩ := h1
    have hpf : p.falsy = false := Bool.eq_false_iff.mpr hp
    by_cases h2 : (sigNormalize sig).length = 0
    · rw [if_pos h2]
      have hnil : sigNormalize sig = [] := List.length_eq_zero.mp h2
      simp only [hnil, nodeHexDecode, Bool.false_eq_true, false_iff]
      rintro ⟨_, _, _, heq⟩
      have := congrArg List.length heq
      simp [hlen] at this
    · rw [if_neg h2]
      by_cases h3 : (nodeHexDecode (sigNormalize sig)).length ≠
          (hmacSHA256 k (signingPayload t p.body)).length
      · rw [if_pos h3]
        simp only [Bool.false_eq_true, false_iff]
        rintro ⟨_, _, _, heq⟩
        exact h3 (congrArg List.length heq)
      · rw [if_neg h3]
        simp only [beq_iff_eq]
        constructor
        · intro heq
          exact ⟨hpf, fun h => hs (by simp [h]), fun h => hk (by simp [h]), heq⟩
        · rintro ⟨_, _, _, heq⟩
          exact heq

/-! ### Claim theorems for the signature verifier -/

theorem signWebhook_ne_nil (secret t payload) : signWebhook secret t payload ≠ [] := by
  intro h
  have hl := congrArg List.length h
  rw [signWebhook, hexEncode_length, hmacSHA256_length] at hl
  simp at hl

/-- C2 (amended): for a non-empty payload and non-empty verifying secret,
verifying the signed payload succeeds exactly when the verifying secret's
HMAC of the signing input coincides with the signing secret's — so it is
always `true` for the same secret, `false` whenever the HMACs differ, but
HMAC-equivalent distinct secrets are accepted interchangeably. -/
theorem webhook_verify_sign (payload secret secret2 : List Nat) (t : Option (List Nat))
    (hp : payload ≠ []) (hs2 : secret2 ≠ []) :
    verifySignature (.str payload) (signWebhook secret t payload) secret2 t = true ↔
      hmacSHA256 secret (signingPayload t payload) =
        hmacSHA256 secret2 (signingPayload t payload) := by
  have hstrip : sigNormalize (signWebhook secret t payload)
      = hexEncode (hmacSHA256 secret (signingPayload t payload)) :=
    sigNormalize_hexEncode _ (hmacSHA256_lt _ _)
  have hdec : nodeHexDecode (hexEncode (hmacSHA256 secret (signingPayload t payload)))
      = hmacSHA256 secret (signingPayload t payload) :=
    nodeHexDecode_hexEncode _ (hmacSHA256_lt _ _)
  have hpf : (JsPayload.str payload).falsy = false := by
    cases payload with
    | nil => exact absurd rfl hp
    | cons a l => rfl
  rw [verifySignature_true_iff]
  simp only [JsPayload.body]
  unfold signWebhook
  rw [show sigNormalize (hexEncode (hmacSHA256 secret (signingPayload t payload)))
      = hexEncode (hmacSHA256 secret (signingPayload t payload)) from hstrip, hdec]
  constructor
  · rintro ⟨_, _, _, heq⟩
    exact heq
  · intro heq
    exact ⟨hpf, signWebhook_ne_nil secret t payload, hs2, heq⟩

/-- C2 witness: the amended theorem applied at a concrete payload, secret and
timestamp. -/
theorem webhook_verify_sign_witness :
    strBytes "xyz" ≠ ([] : List Nat) ∧ strBytes "whsec_1" ≠ ([] : List Nat) ∧
    (verifySignature (.str (strBytes "xyz"))
        (signWebhook (strBytes "whsec_1") none (strBytes "xyz"))
        (strBytes "whsec_1") none = true ↔
      hmacSHA256 (strBytes "whsec_1") (signingPayload none (strBytes "xyz")) =
        hmacSHA256 (strBytes "whsec_1") (signingPayload none (strBytes "xyz"))) :=
  ⟨by decide, by decide,
    webhook_verify_sign (strBytes "xyz") (strBytes "whsec_1") (strBytes "whsec_1") none
      (by decide) (by decide)⟩

set_option maxRecDepth 200000 in
/-- C2 counterexample: the claim "`verifySignature(P, sign(P,S), S')` returns
`false` for every secret `S' ≠ S`" fails on the code.  HMAC-SHA256 zero-pads
keys to the 64-byte block, so the distinct secret `"secret\u0000"` verifies a
payload signed with `"secret"`. -/
theorem webhook_verify_distinct_secret_accepted :
    strBytes "secret" ≠ strBytes "secret\x00" ∧
    verifySignature (.str (strBytes "x"))
      (signWebhook (strBytes "secret") none (strBytes "x"))
      (strBytes "secret\x00") none = true :=
  ⟨by decide, by decide⟩

/-- C7 (amended): the verifier is a total function (never raises) and returns
`true` exactly when the payload is truthy (an empty *string* is rejected, but
an empty Buffer is an object, hence truthy, and is not), signature and secret
are non-empty, and the signature's leading valid hex pairs (Node
`Buffer.from(_, 'hex')` semantics) decode to the expected HMAC; in particular
an empty signature or secret, a signature of wrong decoded length and a
signature whose decoded bytes differ all yield `false`. -/
theorem verify_never_throws_characterization (p : JsPayload) (sig : List Char)
    (k : List Nat) (t : Option (List Nat)) :
    verifySignature p sig k t = true ↔
      p.falsy = false ∧ sig ≠ [] ∧ k ≠ [] ∧
        nodeHexDecode (sigNormalize sig) = hmacSHA256 k (signingPayload t p.body) :=
  verifySignature_true_iff p sig k t

set_option maxRecDepth 200000 in
/-- C7 counterexample: a malformed signature — 66 characters, containing the
non-hex characters `z` — is nevertheless accepted, because Node hex decoding
silently truncates at the first invalid pair; and an empty *Buffer* payload
is truthy, slips past the `!payload` guard, and its correct signature
verifies as `true`.  Both "wrong length or non-hex characters return false"
and "empty payload returns false" fail on the code. -/
theorem verify_trailing_garbage_accepted :
    (signWebhook (strBytes "secret") none (strBytes "x") ++ ['z', 'z']).length = 66 ∧
    hexVal 'z' = none ∧
    verifySignature (.str (strBytes "x"))
      (signWebhook (strBytes "secret") none (strBytes "x") ++ ['z', 'z'])
      (strBytes "secret") none = true ∧
    verifySignature (.buf []) (signWebhook (strBytes "secret") none [])
      (strBytes "secret") none = true :=
  ⟨by decide, by decide, by decide, by decide⟩


/-! ## Error taxonomy (`src/errors.ts`) and the request engine
(`BaseResource.executeRequest`, base.ts lines 62–217) -/

/-- The SDK error kinds as a sum type.  `rateLimitError` is an `ApiError`
with status 429 in the source (class hierarchy); `authenticationError` one
with status 401. -/
inductive SdkError where
  | networkError (msg : String)
  | apiError (msg : String) (statusCode : Nat)
  | rateLimitError (msg : String) (retryAfter : Nat)
  | authenticationError (msg : String)
  | validationError (msg : String)
  | stockAlertError (msg : String)
deriving DecidableEq

/-- What one `fetch` attempt can yield: the two network-class rejections the
catch block recognizes (`AbortError`, `TypeError` mentioning `fetch`), or a
response.  A response carries status, whether the content-type is JSON,
the envelope flags, and — for the 429 path — the retry-after seconds the
handler computes from the reset time. -/
structure RespInfo where
  status : Nat
  ctJson : Bool
  success : Bool
  hasData : Bool
  hasMeta : Bool
  retryAfter : Nat
  dataVal : Nat
  metaVal : Nat
deriving DecidableEq

inductive FetchOutcome where
  | fetchFailed
  | aborted
  | resp (r : RespInfo)
deriving DecidableEq

/-- An unwrapped result: the bare `data`, or `{data, meta}` for paginated
envelopes. -/
inductive RespValue where
  | plain (dataVal : Nat)
  | withMeta (dataVal metaVal : Nat)
deriving DecidableEq

/-- One loop iteration of `executeRequest`, lines 104–185: the try body
classifies the response (content-type check, 429, 401, other non-2xx,
envelope failure, unwrap), and the catch converts `AbortError` and fetch
`TypeError` to `NetworkError`.  Error messages are the source's fallback
strings (the status interpolation is dropped). -/
def attemptResult : FetchOutcome → Except SdkError RespValue
  | .aborted => .error (.networkError "Request timeout")
  | .fetchFailed => .error (.networkError "Network request failed - check your connection")
  | .resp r =>
    if r.ctJson = false then .error (.apiError "Invalid response content type" r.status)
    else if r.status = 429 then .error (.rateLimitError "Rate limit exceeded" r.retryAfter)
    else if ¬ (200 ≤ r.status ∧ r.status ≤ 299) then
      if r.status = 401 then .error (.authenticationError "Authentication failed")
      else .error (.apiError "HTTP error" r.status)
    else if r.success = false ∨ r.hasData = false then .error (.apiError "Request failed" r.status)
    else if r.hasMeta then .ok (.withMeta r.dataVal r.metaVal)
    else .ok (.plain r.dataVal)

/-- The catch block's immediate rethrows (lines 179–195): converted network
errors propagate at once, and so does any `ApiError` with a 4xx status other
than 429 (`AuthenticationError` carries 401).  Everything else falls through
to the backoff-and-retry tail. -/
def throwsWithoutRetry : SdkError → Bool
  | .networkError _ => true
  | .authenticationError _ => true
  | .apiError _ s => decide (400 ≤ s ∧ s < 500 ∧ s ≠ 429)
  | _ => false

/-- The retry loop (`for attempt in 0..maxRetries`), structurally recursive on
the retries remaining so it evaluates.  Returns the surfaced result and the
number of attempts performed.  `outcomes n` is what the network does on the
`n`-th fetch. -/
def execLoop (outcomes : Nat → FetchOutcome) : Nat → Nat → Except SdkError RespValue × Nat
  | attempt, remaining =>
    match attemptResult (outcomes attempt) with
    | .ok v => (.ok v, attempt + 1)
    | .error e =>
      if throwsWithoutRetry e then (.error e, attempt + 1)
      else
        match remaining with
        | 0 => (.error e, attempt + 1)
        | r + 1 => execLoop outcomes (attempt + 1) r

/-- `executeRequest` under a given per-attempt network behaviour and retry
ceiling (`options.retries ?? config.maxRetries`). -/
def executeRequest (outcomes : Nat → FetchOutcome) (maxRetries : Nat) :
    Except SdkError RespValue × Nat :=
  execLoop outcomes 0 maxRetries

/-- C1 counterexample: under a persistent transport failure and the default
`maxRetries = 3`, the engine performs exactly one attempt — not
`maxRetries + 1 = 4` — before surfacing `NetworkError`: the catch block
rethrows converted network errors before the retry tail can run. -/
theorem network_failure_single_attempt_counterexample :
    executeRequest (fun _ => .fetchFailed) 3 =
      (.error (.networkError "Network request failed - check your connection"), 1) ∧
    (1 : Nat) ≠ 3 + 1 := by
  constructor
  · rfl
  · decide

/-- C1 (amended): whenever the first attempt fails with a network-class
failure (timeout abort or transport/fetch `TypeError`), `executeRequest`
surfaces `NetworkError` immediately after exactly one attempt, with no
backoff and no retries, for every retry ceiling. -/
theorem network_failure_immediate (outcomes : Nat → FetchOutcome) (maxRetries : Nat) :
    (outcomes 0 = .fetchFailed →
      executeRequest outcomes maxRetries =
        (.error (.networkError "Network request failed - check your connection"), 1)) ∧
    (outcomes 0 = .aborted →
      executeRequest outcomes maxRetries =
        (.error (.networkError "Request timeout"), 1)) := by
  constructor <;> intro h0 <;>
    simp [executeRequest, execLoop, h0, attemptResult, throwsWithoutRetry]

/-- C1 witness: the amended theorem applied to the persistent-failure network
with the default retry ceiling. -/
theorem network_failure_immediate_witness :
    ((fun _ => FetchOutcome.fetchFailed) 0 = FetchOutcome.fetchFailed) ∧
    executeRequest (fun _ => FetchOutcome.fetchFailed) 3 =
      (.error (.networkError "Network request failed - check your connection"), 1) :=
  ⟨rfl, (network_failure_immediate (fun _ => .fetchFailed) 3).1 rfl⟩

/-- The network behaviour for the C8 counterexample: the first response is a
200 with a non-JSON content-type, the second a well-formed JSON success. -/
def nonJsonThenOk : Nat → FetchOutcome := fun n =>
  if n = 0 then .resp ⟨200, false, true, true, false, 0, 0, 0⟩
  else .resp ⟨200, true, true, true, false, 0, 7, 0⟩

/-- C8 counterexample: a non-JSON content-type on a 200 response does NOT
surface immediately — the resulting `ApiError` has status 200, escapes the
4xx no-retry window, and the engine retries (two attempts, final success).
"No further attempts are made, regardless of the response's status code"
fails on the code. -/
theorem non_json_retried_counterexample :
    nonJsonThenOk 0 = .resp ⟨200, false, true, true, false, 0, 0, 0⟩ ∧
    executeRequest nonJsonThenOk 3 = (.ok (.plain 7), 2) := by
  constructor
  · rfl
  · rfl

/-- C8 (amended): a response whose content-type is not JSON raises `ApiError`
carrying the response's status — never a retryable `NetworkError` — and it
aborts the retry loop immediately exactly when that status is a 4xx other
than 429; for any other status the `ApiError` is retryable: with retries
remaining the loop proceeds to the next attempt. -/
theorem non_json_api_error (outcomes : Nat → FetchOutcome) (maxRetries : Nat) (r : RespInfo)
    (h0 : outcomes 0 = .resp r) (hct : r.ctJson = false) :
    ((400 ≤ r.status ∧ r.status < 500 ∧ r.status ≠ 429) →
      executeRequest outcomes maxRetries =
        (.error (.apiError "Invalid response content type" r.status), 1)) ∧
    (¬ (400 ≤ r.status ∧ r.status < 500 ∧ r.status ≠ 429) → ∀ mr2, maxRetries = mr2 + 1 →
      executeRequest outcomes maxRetries = execLoop outcomes 1 mr2) := by
  constructor
  · intro hs
    simp [executeRequest, execLoop, h0, attemptResult, hct, throwsWithoutRetry, hs]
  · intro hs mr2 hmr
    subst hmr
    show execLoop outcomes 0 (mr2 + 1) = execLoop outcomes 1 mr2
    rw [execLoop.eq_def]
    simp [h0, attemptResult, hct, throwsWithoutRetry, hs]

/-- C8 witness: the amended theorem at a concrete 404 HTML response (the
immediate branch) and at a 200 HTML response (the retried branch, shown
proceeding to attempt 1 and succeeding). -/
theorem non_json_api_error_witness :
    executeRequest (fun _ => FetchOutcome.resp ⟨404, false, false, false, false, 0, 0, 0⟩) 3 =
      (.error (.apiError "Invalid response content type" 404), 1) ∧
    executeRequest nonJsonThenOk 3 = execLoop nonJsonThenOk 1 2 :=
  ⟨(non_json_api_error (fun _ => .resp ⟨404, false, false, false, false, 0, 0, 0⟩) 3
      ⟨404, false, false, false, false, 0, 0, 0⟩ rfl rfl).1 (by decide),
   (non_json_api_error nonJsonThenOk 3 ⟨200, false, true, true, false, 0, 0, 0⟩
      rfl rfl).2 (by decide) 2 rfl⟩

/-! ## Rate-limit state (`checkRateLimit`, the 429 handler) and the
pending-request registry (`BaseResource.request`) -/

/-- ASCII lowercase, structurally (so concrete header lookups evaluate). -/
def lowerAscii (c : Char) : Char :=
  if 'A' ≤ c ∧ c ≤ 'Z' then Char.ofNat (c.toNat + 32) else c

/-- Case-insensitive header lookup (fetch `Headers.get`). -/
def getHeader (headers : List (String × String)) (name : String) : Option String :=
  (headers.find? (fun p => p.1.toList.map lowerAscii == name.toList.map lowerAscii)).map
    (fun p => p.2)

/-- `parseInt(s, 10)` on the fragment exercised here: optional leading
spaces then a run of decimal digits; `none` models NaN. -/
def jsParseIntDec (s : String) : Option Nat :=
  let cs := s.toList.dropWhile (fun c => c == ' ')
  let ds := cs.takeWhile (fun c => c.isDigit)
  if ds.isEmpty then none
  else some (ds.foldl (fun a c => a * 10 + (c.toNat - 48)) 0)

/-- The reset time stored on a 429 (base.ts lines 135–136): the
`X-RateLimit-Reset` header when present and non-empty — a NaN parse is
modelled as 0, which the truthiness guard in `checkRateLimit` likewise never
blocks on — else the default cooldown `now + 60000`. -/
def storedReset (headers : List (String × String)) (now : Nat) : Nat :=
  match getHeader headers "X-RateLimit-Reset" with
  | none => now + 60000
  | some s => if s = "" then now + 60000 else (jsParseIntDec s).getD 0

/-- `Math.ceil((reset - now) / 1000)` for `now < reset`. -/
def ceilSecs (reset now : Nat) : Nat := (reset - now + 999) / 1000

/-- `Map.set`: replace the entry if the key exists, else append. -/
def setKey : List (String × Nat) → String → Nat → List (String × Nat)
  | [], k, v => [(k, v)]
  | (k0, v0) :: rest, k, v =>
    if k0 = k then (k, v) :: rest else (k0, v0) :: setKey rest k v

/-- `Map.delete`. -/
def removeKey : List (String × Nat) → String → List (String × Nat)
  | [], _ => []
  | (k0, v0) :: rest, k => if k0 = k then rest else (k0, v0) :: removeKey rest k

/-- `checkRateLimit` (base.ts lines 286–295): a stored, truthy reset time
still in the future fails the call immediately with `RateLimitError`
carrying the remaining whole seconds. -/
def checkRateLimit (rl : List (String × Nat)) (origin : String) (now : Nat) :
    Option SdkError :=
  match rl.lookup origin with
  | some resetTime =>
    if resetTime ≠ 0 ∧ now < resetTime then
      some (.rateLimitError "Rate limit in effect" (ceilSecs resetTime now))
    else none
  | none => none

/-- The 429 handler's mutation of the rate-limit map. -/
def record429 (rl : List (String × Nat)) (origin : String)
    (headers : List (String × String)) (now : Nat) : List (String × Nat) :=
  setKey rl origin (storedReset headers now)

/-- Per-client mutable state: the pending-request registry (fingerprint →
promise id), the rate-limit map (origin → reset time), a fresh-promise
counter, and the number of `executeRequest` launches (network attempts
started). -/
structure ClientState where
  pending : List (String × Nat)
  rl : List (String × Nat)
  nextId : Nat
  launches : Nat
deriving DecidableEq

/-- Launch a fresh `executeRequest`; GET requests are registered under their
fingerprint. -/
def launchNew (st : ClientState) (method key : String) :
    (Except SdkError (Nat × Bool)) × ClientState :=
  (.ok (st.nextId, true),
   { st with
      pending := if method = "GET" then (key, st.nextId) :: st.pending else st.pending,
      nextId := st.nextId + 1,
      launches := st.launches + 1 })

/-- The deduplication branch of `BaseResource.request` (lines 43–57): an
in-flight GET with the same fingerprint is returned as-is (`false` = no new
launch). -/
def dedupOrLaunch (st : ClientState) (method key : String) :
    (Except SdkError (Nat × Bool)) × ClientState :=
  if method = "GET" then
    match st.pending.lookup key with
    | some pid => (.ok (pid, false), st)
    | none => launchNew st method key
  else launchNew st method key

/-- The synchronous prefix of `BaseResource.request`: the rate-limit gate
runs before the dedup lookup. -/
def requestStep (st : ClientState) (method key origin : String) (now : Nat) :
    (Except SdkError (Nat × Bool)) × ClientState :=
  match checkRateLimit st.rl origin now with
  | some e => (.error e, st)
  | none => dedupOrLaunch st method key

/-- The `.finally` handler: the registry entry is removed whatever the
outcome was. -/
def settlePending (st : ClientState) (key : String)
    (_outcome : Except SdkError RespValue) : ClientState :=
  { st with pending := removeKey st.pending key }

/-- The 429 handler's rate-limit recording, lifted to the client state. -/
def applyRecord429 (st : ClientState) (origin : String)
    (headers : List (String × String)) (now : Nat) : ClientState :=
  { st with rl := record429 st.rl origin headers now }

/-! ### Association-list lemmas -/

theorem lookup_setKey_self (m : List (String × Nat)) (k : String) (v : Nat) :
    (setKey m k v).lookup k = some v := by
  induction m with
  | nil => simp [setKey, List.lookup]
  | cons p rest ih =>
    obtain ⟨k0, v0⟩ := p
    by_cases h : k0 = k
    · simp [setKey, h, List.lookup]
    · have hne : (k == k0) = false := by
        simp only [beq_eq_false_iff_ne]
        exact fun hh => h hh.symm
      simp [setKey, h, List.lookup, hne, ih]

theorem lookup_none_not_mem (m : List (String × Nat)) (k : String)
    (h : m.lookup k = none) : k ∉ m.map Prod.fst := by
  induction m with
  | nil => simp
  | cons p rest ih =>
    obtain ⟨k0, v0⟩ := p
    simp only [List.lookup] at h
    by_cases hk : k = k0
    · simp [hk, beq_self_eq_true] at h
    · have hne : (k == k0) = false := beq_eq_false_iff_ne.mpr hk
      rw [hne] at h
      simp only [List.map, List.mem_cons]
      rintro (rfl | hmem)
      · exact hk rfl
      · exact ih h hmem

theorem mem_fst_of_lookup_some (m : List (String × Nat)) (k : String) (v : Nat)
    (h : m.lookup k = some v) : k ∈ m.map Prod.fst := by
  induction m with
  | nil => simp [List.lookup] at h
  | cons p rest ih =>
    obtain ⟨k0, v0⟩ := p
    simp only [List.lookup] at h
    by_cases hk : k = k0
    · simp [hk]
    · have hne : (k == k0) = false := beq_eq_false_iff_ne.mpr hk
      rw [hne] at h
      simp only [List.map, List.mem_cons]
      exact Or.inr (ih h)

theorem lookup_removeKey_self (m : List (String × Nat)) (k : String)
    (hnd : (m.map Prod.fst).Nodup) : (removeKey m k).lookup k = none := by
  induction m with
  | nil => rfl
  | cons p rest ih =>
    obtain ⟨k0, v0⟩ := p
    simp only [List.map, List.nodup_cons] at hnd
    by_cases h : k0 = k
    · subst h
      simp only [removeKey, if_pos rfl]
      cases hl : rest.lookup k0 with
      | none => exact hl
      | some v => exact absurd (mem_fst_of_lookup_some rest k0 v hl) hnd.1
    · have hne : (k == k0) = false := by
        simp only [beq_eq_false_iff_ne]
        exact fun hh => h hh.symm
      simp [removeKey, h, List.lookup, hne, ih hnd.2]

/-! ### Claim theorems for the rate-limit gate (C3) -/

def retryAfterHeaders : List (String × String) := [("Retry-After", "5")]

def cxOrigin : String := "https://stockalert.pro"

/-- C3 counterexample: the engine reads only `X-RateLimit-Reset`.  On a 429
carrying `Retry-After: 5` (and nothing else) at time 0, the stored reset time
is the 60-second default — so 6 seconds later, when the claim says the next
call "is attempted normally", the origin is still blocked for 54 more
seconds. -/
theorem retry_after_ignored_counterexample :
    getHeader retryAfterHeaders "X-RateLimit-Reset" = none ∧
    record429 [] cxOrigin retryAfterHeaders 0 = [(cxOrigin, 60000)] ∧
    checkRateLimit (record429 [] cxOrigin retryAfterHeaders 0) cxOrigin 6000 =
      some (.rateLimitError "Rate limit in effect" 54) :=
  ⟨rfl, rfl, rfl⟩

/-- C3 (amended): after a 429 stores a reset time for an origin — the value
of the `X-RateLimit-Reset` header when present and parseable, else
`now + 60000` — every call to that origin strictly before the stored (truthy)
reset time fails immediately with `RateLimitError` carrying
`ceil((reset - now)/1000)` seconds and leaves the state untouched (no network
attempt, no registry change); once the stored time has passed the rate-limit
gate admits the call to the dedup-or-launch path. -/
theorem rate_limit_gate (st : ClientState) (method key origin : String) (t reset : Nat)
    (hm : st.rl.lookup origin = some reset) :
    (reset ≠ 0 → t < reset →
      requestStep st method key origin t =
        (.error (.rateLimitError "Rate limit in effect" (ceilSecs reset t)), st)) ∧
    (reset ≤ t → requestStep st method key origin t = dedupOrLaunch st method key) ∧
    (∀ rl2 headers now2, getHeader headers "X-RateLimit-Reset" = none →
      (record429 rl2 origin headers now2).lookup origin = some (now2 + 60000)) ∧
    (∀ rl2 headers now2 s v, getHeader headers "X-RateLimit-Reset" = some s →
      jsParseIntDec s = some v →
      (record429 rl2 origin headers now2).lookup origin = some v) := by
  refine ⟨fun h0 hlt => ?_, fun hge => ?_, fun rl2 headers now2 hh => ?_,
    fun rl2 headers now2 s v hh hp => ?_⟩
  · simp [requestStep, checkRateLimit, hm, h0, hlt]
  · simp [requestStep, checkRateLimit, hm, Nat.not_lt.mpr hge]
  · simp [record429, storedReset, hh, lookup_setKey_self]
  · have hs : s ≠ "" := by
      intro he
      rw [he] at hp
      simp [jsParseIntDec] at hp
    simp [record429, storedReset, hh, hs, hp, lookup_setKey_self]

/-- C3 witness: the amended theorem at a concrete state — blocked 1 second
after a 429 stored reset time 60000, admitted once the minute has passed,
and the header value stored when present. -/
theorem rate_limit_gate_witness :
    requestStep ⟨[], [(cxOrigin, 60000)], 0, 0⟩ "GET" "GET:u" cxOrigin 1000 =
      (.error (.rateLimitError "Rate limit in effect" 59), ⟨[], [(cxOrigin, 60000)], 0, 0⟩) ∧
    requestStep ⟨[], [(cxOrigin, 60000)], 0, 0⟩ "GET" "GET:u" cxOrigin 60000 =
      dedupOrLaunch ⟨[], [(cxOrigin, 60000)], 0, 0⟩ "GET" "GET:u" ∧
    (record429 [] cxOrigin [("x-ratelimit-reset", "70000")] 0).lookup cxOrigin = some 70000 :=
  ⟨(rate_limit_gate ⟨[], [(cxOrigin, 60000)], 0, 0⟩ "GET" "GET:u" cxOrigin 1000 60000 rfl).1
      (by decide) (by decide),
   (rate_limit_gate ⟨[], [(cxOrigin, 60000)], 0, 0⟩ "GET" "GET:u" cxOrigin 60000 60000 rfl).2.1
      (by decide),
   (rate_limit_gate ⟨[], [(cxOrigin, 60000)], 0, 0⟩ "GET" "GET:u" cxOrigin 60000 60000 rfl).2.2.2
      [] [("x-ratelimit-reset", "70000")] 0 "70000" 70000 rfl rfl⟩

/-! ### Claim theorems for the pending-request registry (C4) -/

def cxKey : String := "GET:https://stockalert.pro/api/v1/alerts"

def cxSt0 : ClientState := ⟨[], [], 0, 0⟩

/-- Caller A's call at time 0 (no cooldown, nothing pending). -/
def cxRunA : (Except SdkError (Nat × Bool)) × ClientState :=
  requestStep cxSt0 "GET" cxKey cxOrigin 0

/-- Mid-flight, A's first attempt draws a 429 whose handler stores the reset
time 60000 for the origin. -/
def cxSt2 : ClientState :=
  applyRecord429 cxRunA.2 cxOrigin [("X-RateLimit-Reset", "60000")] 0

/-- Caller B issues the identical GET at time 1000, while A is still
pending (sleeping out its backoff). -/
def cxRunB : (Except SdkError (Nat × Bool)) × ClientState :=
  requestStep cxSt2 "GET" cxKey cxOrigin 1000

/-- What the network does to A: a 429 first, then a clean success. -/
def cxOutcomesA : Nat → FetchOutcome := fun n =>
  if n = 0 then .resp ⟨429, true, false, false, false, 60, 0, 0⟩
  else .resp ⟨200, true, true, true, false, 0, 7, 0⟩

/-- C4 counterexample: two concurrent identical GET calls, B issued before A
resolves, do NOT always share one network attempt and one result.  A's 429
stores a cooldown; B then fails synchronously with `RateLimitError` (its own
rejection, no shared promise), while A's deduplicated call retries and
resolves successfully after a second fetch — so the callers observe different
results and two network attempts occur. -/
theorem dedup_rate_limited_counterexample :
    cxRunA.1 = .ok (0, true) ∧
    cxSt2.pending.lookup cxKey = some 0 ∧
    cxRunB.1 = .error (.rateLimitError "Rate limit in effect" 59) ∧
    cxRunB.2.launches = 1 ∧
    executeRequest cxOutcomesA 3 = (.ok (.plain 7), 2) :=
  ⟨rfl, rfl, rfl, rfl, rfl⟩

/-- C4 (amended): the registry keeps at most one live entry per fingerprint
and a second identical GET is deduplicated onto the in-flight promise —
provided no rate-limit cooldown intercepts it first (the gate runs before the
dedup lookup, so a second call during a 429 cooldown gets its own synchronous
`RateLimitError`).  The entry is removed on settle unconditionally — the
outcome is never inspected — and a deduplicated call launches no new network
attempt. -/
theorem dedup_registry (st : ClientState) (key : String) (pid : Nat)
    (outcome : Except SdkError RespValue) :
    (st.pending.lookup key = some pid →
      dedupOrLaunch st "GET" key = (.ok (pid, false), st)) ∧
    (st.pending.lookup key = none →
      dedupOrLaunch st "GET" key =
        (.ok (st.nextId, true),
         { st with pending := (key, st.nextId) :: st.pending, nextId := st.nextId + 1,
                   launches := st.launches + 1 })) ∧
    ((st.pending.map Prod.fst).Nodup →
      (settlePending st key outcome).pending.lookup key = none) ∧
    (∀ outcome2, settlePending st key outcome = settlePending st key outcome2) ∧
    ((st.pending.map Prod.fst).Nodup → ∀ method origin now,
      (((requestStep st method key origin now).2).pending.map Prod.fst).Nodup) := by
  refine ⟨fun hs => ?_, fun hn => ?_, fun hnd => ?_, fun _ => rfl, fun hnd method origin now => ?_⟩
  · simp [dedupOrLaunch, hs]
  · simp [dedupOrLaunch, hn, launchNew]
  · exact lookup_removeKey_self _ _ hnd
  · unfold requestStep
    cases checkRateLimit st.rl origin now with
    | some e => exact hnd
    | none =>
      unfold dedupOrLaunch
      by_cases hg : method = "GET"
      · rw [if_pos hg]
        cases hl : st.pending.lookup key with
        | some pid2 => exact hnd
        | none =>
          simp only [launchNew, hg, if_pos rfl, List.map, List.nodup_cons]
          exact ⟨lookup_none_not_mem _ _ hl, hnd⟩
      · rw [if_neg hg]
        simp only [launchNew, if_neg hg]
        exact hnd

/-- C4 witness: the amended theorem at a concrete one-entry registry. -/
theorem dedup_registry_witness :
    (([(cxKey, 5)] : List (String × Nat)).lookup cxKey = some 5) ∧
    dedupOrLaunch ⟨[(cxKey, 5)], [], 6, 1⟩ "GET" cxKey = (.ok (5, false), ⟨[(cxKey, 5)], [], 6, 1⟩) ∧
    (settlePending ⟨[(cxKey, 5)], [], 6, 1⟩ cxKey (.ok (.plain 7))).pending.lookup cxKey = none :=
  ⟨rfl,
   (dedup_registry ⟨[(cxKey, 5)], [], 6, 1⟩ cxKey 5 (.ok (.plain 7))).1 rfl,
   (dedup_registry ⟨[(cxKey, 5)], [], 6, 1⟩ cxKey 5 (.ok (.plain 7))).2.2.1 (by decide)⟩

/-! ## Client construction (`StockAlert.constructor`, client.ts lines 38–45)
and its validation (C9) -/

/-- The auth-relevant slice of `StockAlertConfig`: `apiKey` may be absent
(`undefined`) and `bearerToken` is optional. -/
structure ClientConfig where
  apiKey : Option String
  bearerToken : Option String
deriving DecidableEq

/-- The constructor's validation: a falsy `apiKey` (absent or empty) is
rejected outright — the `bearerToken` is never consulted — then the
`sk_` prefix and minimum length 10 are enforced. -/
def validateClientConfig (c : ClientConfig) : Except SdkError Unit :=
  match c.apiKey with
  | none => .error (.validationError "API key is required")
  | some k =>
    if k = "" then .error (.validationError "API key is required")
    else if k.startsWith "sk_" = false ∨ k.length < 10 then
      .error (.validationError "Invalid API key format")
    else .ok ()

/-- C9 counterexample: construction with a bearer token but no API key does
NOT succeed — the constructor requires an `apiKey` unconditionally. -/
theorem bearer_only_construction_fails :
    validateClientConfig ⟨none, some "bearer-token-123"⟩ =
      .error (.validationError "API key is required") :=
  rfl

/-- C9 (amended): construction fails with `ValidationError` exactly when the
`apiKey` is absent or empty or fails the `sk_`-prefix / minimum-length-10
check; a `bearerToken` alone never suffices (it plays no part in the
validation). -/
theorem construction_validation (c : ClientConfig) :
    validateClientConfig c = .ok () ↔
      ∃ k, c.apiKey = some k ∧ k ≠ "" ∧ k.startsWith "sk_" = true ∧ 10 ≤ k.length := by
  obtain ⟨ak, bt⟩ := c
  cases ak with
  | none => simp [validateClientConfig]
  | some k =>
    simp only [validateClientConfig]
    by_cases h1 : k = ""
    · subst h1
      simp
    · rw [if_neg h1]
      by_cases h2 : k.startsWith "sk_" = false ∨ k.length < 10
      · rw [if_pos h2]
        simp only [reduceCtorEq, false_iff]
        rintro ⟨k2, hk2, hne, hpre, hlen⟩
        rw [Option.some.injEq] at hk2
        subst hk2
        rcases h2 with h2 | h2
        · rw [hpre] at h2
          exact absurd h2 (by decide)
        · omega
      · rw [if_neg h2]
        push_neg at h2
        constructor
        · intro _
          exact ⟨k, rfl, h1, eq_true_of_ne_false h2.1, h2.2⟩
        · intro _
          rfl
/-! ## JSON values (`JSON.parse` / `JSON.stringify` model) for the webhook
payload parser.

The model covers the fragment the webhook subsystem exercises: numbers are
integers, documents carry no insignificant whitespace, and `\uXXXX` escapes
denote scalar values.  Objects and arrays nest arbitrarily. -/

mutual
inductive JVal where
  | jnull
  | jbool (b : Bool)
  | jnum (n : Int)
  | jstr (s : String)
  | jarr (els : JElems)
  | jobj (fields : JFields)
inductive JElems where
  | enil
  | econs (v : JVal) (rest : JElems)
inductive JFields where
  | fnil
  | fcons (key : String) (v : JVal) (rest : JFields)
end

def lbrace : Char := Char.ofNat 123

def rbrace : Char := Char.ofNat 125

/-- Property lookup on an object's field list (JS objects: first binding). -/
def getField : JFields → String → Option JVal
  | .fnil, _ => none
  | .fcons k v rest, key => if k = key then some v else getField rest key

/-- Property assignment: overwrite the binding in place, or add it. -/
def setField : JFields → String → JVal → JFields
  | .fnil, key, v => .fcons key v .fnil
  | .fcons k w rest, key, v =>
    if k = key then .fcons k v rest else .fcons k w (setField rest key v)

/-- `p[key]` for an arbitrary value: only objects have string-keyed
properties in the fragment used here. -/
def jprop : JVal → String → Option JVal
  | .jobj fs, k => getField fs k
  | _, _ => none

/-- In-place property assignment, a no-op off objects. -/
def jsetProp : JVal → String → JVal → JVal
  | .jobj fs, k, v => .jobj (setField fs k v)
  | other, _, _ => other

/-- `typeof x === 'object' && x !== null` (arrays included). -/
def isObjectType : JVal → Bool
  | .jobj _ => true
  | .jarr _ => true
  | _ => false

/-! ### Decimal digits and the integer fragment of number syntax -/

def isDigitCh (c : Char) : Bool := '0' ≤ c && c ≤ '9'

def decDigitsVal (cs : List Char) : Nat :=
  cs.foldl (fun a c => a * 10 + (c.toNat - 48)) 0

/-- Little-endian decimal digits of `n`, fuel-structured. -/
def digitsLE : Nat → Nat → List Char
  | 0, _ => []
  | fuel + 1, n => if n = 0 then [] else hexDigitChar (n % 10) :: digitsLE fuel (n / 10)

def natToDigits (n : Nat) : List Char :=
  if n = 0 then ['0'] else (digitsLE (n + 1) n).reverse

/-- Decimal rendering of an integer (`JSON.stringify` of an integral
number). -/
def intToChars : Int → List Char
  | .ofNat n => natToDigits n
  | .negSucc m => '-' :: natToDigits (m + 1)

/-! ### The serializer (`JSON.stringify`) -/

/-- One character of string content, escaped: quote and backslash, the
short control escapes, `\u00XX` for other control characters, the character
itself otherwise. -/
def escCharJson (c : Char) : List Char :=
  if c = '"' then ['\\', '"']
  else if c = '\\' then ['\\', '\\']
  else if c = Char.ofNat 8 then ['\\', 'b']
  else if c = Char.ofNat 9 then ['\\', 't']
  else if c = Char.ofNat 10 then ['\\', 'n']
  else if c = Char.ofNat 12 then ['\\', 'f']
  else if c = Char.ofNat 13 then ['\\', 'r']
  else if c.toNat < 32 then
    ['\\', 'u', '0', '0', hexDigitChar (c.toNat / 16), hexDigitChar (c.toNat % 16)]
  else [c]

def serStrBody : List Char → List Char
  | [] => []
  | c :: cs => escCharJson c ++ serStrBody cs

mutual
def serVal : JVal → List Char
  | .jnull => ['n', 'u', 'l', 'l']
  | .jbool b => cond b ['t', 'r', 'u', 'e'] ['f', 'a', 'l', 's', 'e']
  | .jnum n => intToChars n
  | .jstr s => '"' :: (serStrBody s.toList ++ ['"'])
  | .jarr es => '[' :: serElems es
  | .jobj fs => lbrace :: serFields fs
def serElems : JElems → List Char
  | .enil => [']']
  | .econs v tl => serVal v ++ (serElemsTail tl ++ [']'])
def serElemsTail : JElems → List Char
  | .enil => []
  | .econs v tl => ',' :: (serVal v ++ serElemsTail tl)
def serField (k : String) (v : JVal) : List Char :=
  '"' :: (serStrBody k.toList ++ ('"' :: ':' :: serVal v))
def serFields : JFields → List Char
  | .fnil => [rbrace]
  | .fcons k v tl => serField k v ++ (serFieldsTail tl ++ [rbrace])
def serFieldsTail : JFields → List Char
  | .fnil => []
  | .fcons k v tl => ',' :: (serField k v ++ serFieldsTail tl)
end

def serJson (v : JVal) : String := String.mk (serVal v)

/-! ### The parser (`JSON.parse`) -/

def unescCharJson : Char → Option Char
  | '"' => some '"'
  | '\\' => some '\\'
  | '/' => some '/'
  | 'n' => some (Char.ofNat 10)
  | 't' => some (Char.ofNat 9)
  | 'r' => some (Char.ofNat 13)
  | 'b' => some (Char.ofNat 8)
  | 'f' => some (Char.ofNat 12)
  | _ => none

def pStrBody : Nat → List Char → List Char → Option (String × List Char)
  | 0, _, _ => none
  | fuel + 1, acc, cs =>
    match cs with
    | [] => none
    | c :: r =>
      if c = '"' then some (String.mk acc.reverse, r)
      else if c = '\\' then
        match r with
        | [] => none
        | e :: r2 =>
          if e = 'u' then
            match r2 with
            | a :: b :: c2 :: d :: r3 =>
              match hexVal a, hexVal b, hexVal c2, hexVal d with
              | some va, some vb, some vc, some vd =>
                pStrBody fuel (Char.ofNat (((va * 16 + vb) * 16 + vc) * 16 + vd) :: acc) r3
              | _, _, _, _ => none
            | _ => none
          else
            match unescCharJson e with
            | some ch => pStrBody fuel (ch :: acc) r2
            | none => none
      else pStrBody fuel (c :: acc) r

def pIntNum (cs : List Char) : Option (Int × List Char) :=
  match cs with
  | [] => none
  | c :: r =>
    if c = '-' then
      let ds := r.takeWhile isDigitCh
      if ds.isEmpty then none else some (-(decDigitsVal ds : Int), r.dropWhile isDigitCh)
    else
      let ds := (c :: r).takeWhile isDigitCh
      if ds.isEmpty then none
      else some ((decDigitsVal ds : Int), (c :: r).dropWhile isDigitCh)

mutual
def pVal : Nat → List Char → Option (JVal × List Char)
  | 0, _ => none
  | _, [] => none
  | fuel + 1, c :: r =>
    if c = 'n' then (if r.take 3 = ['u', 'l', 'l'] then some (.jnull, r.drop 3) else none)
    else if c = 't' then (if r.take 3 = ['r', 'u', 'e'] then some (.jbool true, r.drop 3) else none)
    else if c = 'f' then
      (if r.take 4 = ['a', 'l', 's', 'e'] then some (.jbool false, r.drop 4) else none)
    else if c = '"' then
      match pStrBody fuel [] r with
      | some (s, r2) => some (.jstr s, r2)
      | none => none
    else if c = '[' then
      match r with
      | [] => none
      | c2 :: r2 =>
        if c2 = ']' then some (.jarr .enil, r2)
        else
          match pElems fuel (c2 :: r2) with
          | some (es, r3) => some (.jarr es, r3)
          | none => none
    else if c = lbrace then
      match r with
      | [] => none
      | c2 :: r2 =>
        if c2 = rbrace then some (.jobj .fnil, r2)
        else
          match pFields fuel (c2 :: r2) with
          | some (fs, r3) => some (.jobj fs, r3)
          | none => none
    else if c = '-' ∨ isDigitCh c = true then
      match pIntNum (c :: r) with
      | some (n, r2) => some (.jnum n, r2)
      | none => none
    else none
def pElems : Nat → List Char → Option (JElems × List Char)
  | 0, _ => none
  | fuel + 1, cs =>
    match pVal fuel cs with
    | some (v, r) =>
      match r with
      | c :: r2 =>
        if c = ',' then
          match pElems fuel r2 with
          | some (es, r3) => some (.econs v es, r3)
          | none => none
        else if c = ']' then some (.econs v .enil, r2)
        else none
      | [] => none
    | none => none
def pFields : Nat → List Char → Option (JFields × List Char)
  | 0, _ => none
  | fuel + 1, cs =>
    match cs with
    | [] => none
    | c :: r =>
      if c = '"' then
        match pStrBody fuel [] r with
        | some (k, r1) =>
          match r1 with
          | c1 :: r2 =>
            if c1 = ':' then
              match pVal fuel r2 with
              | some (v, r3) =>
                match r3 with
                | c3 :: r4 =>
                  if c3 = ',' then
                    match pFields fuel r4 with
                    | some (fs, r5) => some (.fcons k v fs, r5)
                    | none => none
                  else if c3 = rbrace then some (.fcons k v .fnil, r4)
                  else none
                | [] => none
              | none => none
            else none
          | [] => none
        | none => none
      else none
end

def jsonParse (s : String) : Option JVal :=
  match pVal (s.toList.length + 1) s.toList with
  | some (v, []) => some v
  | _ => none

/-! ### Digit and number codec lemmas -/

theorem digit_char_facts : ∀ d < 10,
    isDigitCh (hexDigitChar d) = true ∧ (hexDigitChar d).toNat - 48 = d := by decide

theorem digitsLE_facts : ∀ (fuel n : Nat), n < 10 ^ fuel →
    (∀ c ∈ digitsLE fuel n, isDigitCh c = true) ∧
    decDigitsVal ((digitsLE fuel n).reverse) = n := by
  intro fuel
  induction fuel with
  | zero =>
    intro n hn
    interval_cases n
    exact ⟨by simp [digitsLE], rfl⟩
  | succ f ih =>
    intro n hn
    by_cases h0 : n = 0
    · subst h0
      exact ⟨by simp [digitsLE], rfl⟩
    · have hdiv : n / 10 < 10 ^ f := by
        rw [Nat.div_lt_iff_lt_mul (by omega)]
        calc n < 10 ^ (f + 1) := hn
        _ = 10 ^ f * 10 := by ring
      obtain ⟨ihd, ihv⟩ := ih (n / 10) hdiv
      have hd10 : n % 10 < 10 := Nat.mod_lt _ (by omega)
      obtain ⟨hdig, hval⟩ := digit_char_facts (n % 10) hd10
      constructor
      · intro c hc
        simp only [digitsLE, if_neg h0, List.mem_cons] at hc
        rcases hc with rfl | hc
        · exact hdig
        · exact ihd c hc
      · simp only [digitsLE, if_neg h0, List.reverse_cons]
        unfold decDigitsVal at ihv ⊢
        rw [List.foldl_append, ihv]
        simp only [List.foldl_cons, List.foldl_nil, hval]
        omega

theorem natToDigits_facts (n : Nat) :
    natToDigits n ≠ [] ∧ (∀ c ∈ natToDigits n, isDigitCh c = true) ∧
      decDigitsVal (natToDigits n) = n := by
  by_cases h0 : n = 0
  · subst h0
    refine ⟨by decide, by decide, by decide⟩
  · have hpow : n < 10 ^ (n + 1) := by
      calc n < 10 ^ n := Nat.lt_pow_self (by omega) n
      _ ≤ 10 ^ (n + 1) := Nat.pow_le_pow_right (by omega) (by omega)
    obtain ⟨hdig, hval⟩ := digitsLE_facts (n + 1) n hpow
    refine ⟨?_, ?_, ?_⟩
    · simp only [natToDigits, if_neg h0]
      intro hrev
      rw [List.reverse_eq_nil_iff] at hrev
      rw [hrev] at hval
      simp [decDigitsVal] at hval
      exact h0 hval.symm
    · intro c hc
      simp only [natToDigits, if_neg h0, List.mem_reverse] at hc
      exact hdig c hc
    · simp only [natToDigits, if_neg h0]
      exact hval

/-- A digit character is none of the syntax characters the parser
dispatches on. -/
theorem digit_not_marker (c : Char) (h : isDigitCh c = true) :
    c ≠ 'n' ∧ c ≠ 't' ∧ c ≠ 'f' ∧ c ≠ '"' ∧ c ≠ '[' ∧ c ≠ lbrace ∧ c ≠ '-' ∧
      c ≠ ']' ∧ c ≠ rbrace ∧ c ≠ ',' ∧ c ≠ ':' ∧ c ≠ '\\' := by
  refine ⟨?_, ?_, ?_, ?_, ?_, ?_, ?_, ?_, ?_, ?_, ?_, ?_⟩ <;>
    (rintro rfl; revert h; decide)

def nonDigitHead : List Char → Bool
  | [] => true
  | c :: _ => !(isDigitCh c)

theorem takeWhile_digits (ds rest : List Char) (hds : ∀ c ∈ ds, isDigitCh c = true)
    (hrest : nonDigitHead rest = true) :
    (ds ++ rest).takeWhile isDigitCh = ds ∧ (ds ++ rest).dropWhile isDigitCh = rest := by
  induction ds with
  | nil =>
    simp only [List.nil_append]
    cases rest with
    | nil => exact ⟨rfl, rfl⟩
    | cons c t =>
      simp only [nonDigitHead, Bool.not_eq_true'] at hrest
      simp [List.takeWhile, List.dropWhile, hrest]
  | cons c t ih =>
    have hc : isDigitCh c = true := hds c (List.mem_cons_self ..)
    obtain ⟨iht, ihd⟩ := ih (fun x hx => hds x (List.mem_cons_of_mem _ hx))
    simp [List.takeWhile, List.dropWhile, hc, iht, ihd]

theorem pIntNum_intToChars (n : Int) (rest : List Char) (hrest : nonDigitHead rest = true) :
    pIntNum (intToChars n ++ rest) = some (n, rest) := by
  cases n with
  | ofNat m =>
    obtain ⟨hne, hdig, hval⟩ := natToDigits_facts m
    obtain ⟨c, t, hct⟩ := List.exists_cons_of_ne_nil hne
    have hc : isDigitCh c = true := hdig c (by rw [hct]; exact List.mem_cons_self ..)
    obtain ⟨htake, hdrop⟩ := takeWhile_digits (natToDigits m) rest hdig hrest
    have hnm : c ≠ '-' := (digit_not_marker c hc).2.2.2.2.2.2.1
    simp only [intToChars, hct, List.cons_append, pIntNum, if_neg hnm]
    rw [← List.cons_append, ← hct, htake, hdrop]
    have : (natToDigits m).isEmpty = false := by
      rw [hct]; rfl
    simp [this, hval]
  | negSucc m =>
    obtain ⟨hne, hdig, hval⟩ := natToDigits_facts (m + 1)
    obtain ⟨htake, hdrop⟩ := takeWhile_digits (natToDigits (m + 1)) rest hdig hrest
    simp only [intToChars, List.cons_append, pIntNum, if_true]
    rw [htake, hdrop]
    have hie : (natToDigits (m + 1)).isEmpty = false := by
      cases hh : natToDigits (m + 1) with
      | nil => exact absurd hh hne
      | cons a b => rfl
    rw [if_neg (by rw [hie]; exact Bool.false_ne_true), hval]
    rfl

/-! ### String codec lemmas -/

theorem mkToList (s : String) : String.mk s.toList = s := rfl

theorem pStrBody_plain (fuel : Nat) (c : Char) (acc t : List Char)
    (h1 : c ≠ '"') (h2 : c ≠ '\\') :
    pStrBody (fuel + 1) acc (c :: t) = pStrBody fuel (c :: acc) t := by
  rw [pStrBody.eq_def]
  simp only [if_neg h1, if_neg h2]

theorem pStrBody_esc (fuel : Nat) (c : Char) (acc t : List Char) :
    pStrBody (fuel + 1) acc (escCharJson c ++ t) = pStrBody fuel (c :: acc) t := by
  by_cases h1 : c = '"'
  · subst h1; rfl
  · by_cases h2 : c = '\\'
    · subst h2; rfl
    · by_cases h3 : c = Char.ofNat 8
      · subst h3; rfl
      · by_cases h4 : c = Char.ofNat 9
        · subst h4; rfl
        · by_cases h5 : c = Char.ofNat 10
          · subst h5; rfl
          · by_cases h6 : c = Char.ofNat 12
            · subst h6; rfl
            · by_cases h7 : c = Char.ofNat 13
              · subst h7; rfl
              · by_cases h8 : c.toNat < 32
                · have hesc : escCharJson c =
                      ['\\', 'u', '0', '0', hexDigitChar (c.toNat / 16),
                        hexDigitChar (c.toNat % 16)] := by
                    simp [escCharJson, h1, h2, h3, h4, h5, h6, h7, h8]
                  rw [hesc]
                  show (match hexVal '0', hexVal '0', hexVal (hexDigitChar (c.toNat / 16)),
                      hexVal (hexDigitChar (c.toNat % 16)) with
                    | some va, some vb, some vc, some vd =>
                      pStrBody fuel (Char.ofNat (((va * 16 + vb) * 16 + vc) * 16 + vd) :: acc) t
                    | _, _, _, _ => none) = pStrBody fuel (c :: acc) t
                  rw [show hexVal '0' = some 0 from rfl,
                    hexVal_hexDigitChar _ (show c.toNat / 16 < 16 by omega),
                    hexVal_hexDigitChar _ (show c.toNat % 16 < 16 by omega)]
                  show pStrBody fuel
                      (Char.ofNat (((0 * 16 + 0) * 16 + c.toNat / 16) * 16 + c.toNat % 16)
                        :: acc) t = pStrBody fuel (c :: acc) t
                  rw [show ((0 * 16 + 0) * 16 + c.toNat / 16) * 16 + c.toNat % 16 = c.toNat by
                    omega]
                  rw [Char.ofNat_toNat]
                · have hesc : escCharJson c = [c] := by
                    simp [escCharJson, h1, h2, h3, h4, h5, h6, h7, h8]
                  rw [hesc]
                  exact pStrBody_plain fuel c acc t h1 h2

theorem pStrBody_ser (cs : List Char) : ∀ (fuel : Nat) (acc t : List Char), cs.length < fuel →
    pStrBody fuel acc (serStrBody cs ++ ('"' :: t)) =
      some (String.mk (acc.reverse ++ cs), t) := by
  induction cs with
  | nil =>
    intro fuel acc t hf
    match fuel, hf with
    | f + 1, _ =>
      simp only [serStrBody, List.nil_append, List.append_nil]
      rfl
  | cons c cs ih =>
    intro fuel acc t hf
    match fuel, hf with
    | f + 1, hf2 =>
      rw [show serStrBody (c :: cs) = escCharJson c ++ serStrBody cs from rfl,
        List.append_assoc, pStrBody_esc, ih f (c :: acc) t (by simp at hf2; omega)]
      simp

/-! ### Serializer shape lemmas -/

theorem escCharJson_length_pos (c : Char) : 1 ≤ (escCharJson c).length := by
  unfold escCharJson
  split_ifs <;> simp

theorem serStrBody_length_ge (cs : List Char) : cs.length ≤ (serStrBody cs).length := by
  induction cs with
  | nil => simp [serStrBody]
  | cons c t ih =>
    have := escCharJson_length_pos c
    simp only [serStrBody, List.length_append, List.length_cons]
    omega

theorem intToChars_head (n : Int) : ∃ c t0, intToChars n = c :: t0 ∧
    (c = '-' ∨ isDigitCh c = true) ∧ c ≠ 'n' ∧ c ≠ 't' ∧ c ≠ 'f' ∧ c ≠ '"' ∧
      c ≠ '[' ∧ c ≠ lbrace ∧ c ≠ ']' := by
  cases n with
  | ofNat m =>
    obtain ⟨hne, hdig, _⟩ := natToDigits_facts m
    obtain ⟨c, t0, hct⟩ := List.exists_cons_of_ne_nil hne
    have hc : isDigitCh c = true := hdig c (by rw [hct]; exact List.mem_cons_self ..)
    obtain ⟨d1, d2, d3, d4, d5, d6, _, d8, _⟩ := digit_not_marker c hc
    exact ⟨c, t0, hct, Or.inr hc, d1, d2, d3, d4, d5, d6, d8⟩
  | negSucc m =>
    refine ⟨'-', natToDigits (m + 1), rfl, Or.inl rfl, ?_, ?_, ?_, ?_, ?_, ?_, ?_⟩ <;> decide

theorem serVal_head (v : JVal) : ∃ c t0, serVal v = c :: t0 ∧ c ≠ ']' := by
  cases v with
  | jnull => exact ⟨'n', ['u', 'l', 'l'], by simp [serVal], by decide⟩
  | jbool b =>
    cases b with
    | false => exact ⟨'f', ['a', 'l', 's', 'e'], by simp [serVal], by decide⟩
    | true => exact ⟨'t', ['r', 'u', 'e'], by simp [serVal], by decide⟩
  | jnum n =>
    obtain ⟨c, t0, hct, _, _, _, _, _, _, _, h9⟩ := intToChars_head n
    exact ⟨c, t0, by simp [serVal, hct], h9⟩
  | jstr s => exact ⟨'"', serStrBody s.toList ++ ['"'], by simp [serVal], by decide⟩
  | jarr es => exact ⟨'[', serElems es, by simp [serVal], by decide⟩
  | jobj fs => exact ⟨lbrace, serFields fs, by simp [serVal], by decide⟩

theorem serField_head (k : String) (v : JVal) :
    serField k v = '"' :: (serStrBody k.toList ++ ('"' :: ':' :: serVal v)) := by
  simp [serField]

/-! ### The codec round-trip: parsing a rendered value recovers it -/

mutual
theorem rtVal (v : JVal) : ∀ (fuel : Nat) (t : List Char),
    (serVal v).length < fuel → nonDigitHead t = true →
    pVal fuel (serVal v ++ t) = some (v, t)
  | fuel, t, hf, ht => by
    cases v with
    | jnull =>
      match fuel, hf with
      | f + 1, _ => simp [serVal, pVal]
    | jbool b =>
      match fuel, hf with
      | f + 1, _ => cases b <;> simp [serVal, pVal]
    | jnum n =>
      match fuel, hf with
      | f + 1, _ =>
        obtain ⟨c, t0, hct, hcd, h1, h2, h3, h4, h5, h6, _⟩ := intToChars_head n
        have hser : serVal (JVal.jnum n) = intToChars n := by simp [serVal]
        rw [hser, hct, List.cons_append]
        simp only [pVal, h1, h2, h3, h4, h5, h6, reduceIte]
        rw [if_pos hcd, ← List.cons_append, ← hct, pIntNum_intToChars n t ht]
    | jstr s =>
      match fuel, hf with
      | f + 1, hf2 =>
        have hser : serVal (JVal.jstr s) = '"' :: (serStrBody s.toList ++ ['"']) := by
          simp [serVal]
        rw [hser] at hf2 ⊢
        have hlen : s.toList.length < f := by
          have := serStrBody_length_ge s.toList
          simp only [List.length_cons, List.length_append, List.length_singleton] at hf2
          omega
        rw [List.cons_append]
        simp only [pVal, Char.reduceEq, reduceIte]
        rw [List.append_assoc, List.singleton_append, pStrBody_ser s.toList f [] t hlen]
        simp [mkToList]
    | jarr es =>
      cases es with
      | enil =>
        match fuel, hf with
        | f + 1, _ => simp [serVal, serElems, pVal]
      | econs v2 tl =>
        match fuel, hf with
        | f + 1, hf2 =>
          have hser : serVal (JVal.jarr (JElems.econs v2 tl)) =
              '[' :: (serVal v2 ++ (serElemsTail tl ++ [']'])) := by
            simp [serVal, serElems]
          rw [hser] at hf2 ⊢
          obtain ⟨c, t0, hct, hcne⟩ := serVal_head v2
          have harr : ('[' :: (serVal v2 ++ (serElemsTail tl ++ [']']))) ++ t =
              '[' :: (c :: (t0 ++ (serElemsTail tl ++ (']' :: t)))) := by
            rw [hct]; simp
          rw [harr]
          simp only [pVal, Char.reduceEq, reduceIte]
          rw [if_neg hcne]
          have hrec : pElems f (c :: (t0 ++ (serElemsTail tl ++ (']' :: t)))) =
              some (JElems.econs v2 tl, t) := by
            have hx : c :: (t0 ++ (serElemsTail tl ++ (']' :: t))) =
                serVal v2 ++ (serElemsTail tl ++ (']' :: t)) := by
              rw [hct]; simp
            rw [hx]
            apply rtElems (JElems.econs v2 tl) f t v2 tl rfl
            simp only [List.length_cons, List.length_append, List.length_singleton] at hf2
            omega
          rw [hrec]
    | jobj fs =>
      cases fs with
      | fnil =>
        match fuel, hf with
        | f + 1, _ => simp [serVal, serFields, pVal, lbrace, rbrace]
      | fcons k v2 tl =>
        match fuel, hf with
        | f + 1, hf2 =>
          have hser : serVal (JVal.jobj (JFields.fcons k v2 tl)) =
              lbrace :: (serField k v2 ++ (serFieldsTail tl ++ [rbrace])) := by
            simp [serVal, serFields]
          rw [hser] at hf2 ⊢
          have hobj : (lbrace :: (serField k v2 ++ (serFieldsTail tl ++ [rbrace]))) ++ t =
              lbrace :: ('"' :: ((serStrBody k.toList ++ ('"' :: ':' :: serVal v2)) ++
                (serFieldsTail tl ++ (rbrace :: t)))) := by
            rw [serField_head]; simp
          rw [hobj]
          simp only [pVal, lbrace, rbrace, Char.reduceEq, reduceIte]
          have hrec : pFields f ('"' :: ((serStrBody k.toList ++ ('"' :: ':' :: serVal v2)) ++
              (serFieldsTail tl ++ (Char.ofNat 125 :: t)))) =
              some (JFields.fcons k v2 tl, t) := by
            have hx : '"' :: ((serStrBody k.toList ++ ('"' :: ':' :: serVal v2)) ++
                (serFieldsTail tl ++ (Char.ofNat 125 :: t))) =
                serField k v2 ++ (serFieldsTail tl ++ (rbrace :: t)) := by
              rw [serField_head]; simp [rbrace]
            rw [hx]
            apply rtFields (JFields.fcons k v2 tl) f t k v2 tl rfl
            simp only [List.length_cons, List.length_append, List.length_singleton] at hf2
            omega
          rw [hrec]
theorem rtElems (es : JElems) : ∀ (fuel : Nat) (t : List Char) (v : JVal) (tl : JElems),
    es = JElems.econs v tl → (serVal v).length + (serElemsTail tl).length + 1 < fuel →
    pElems fuel (serVal v ++ (serElemsTail tl ++ (']' :: t))) = some (es, t)
  | fuel, t, v, tl, heq, hf => by
    subst heq
    match fuel, hf with
    | f + 1, hf2 =>
      have hnd : nonDigitHead (serElemsTail tl ++ (']' :: t)) = true := by
        cases tl with
        | enil => simp [serElemsTail, nonDigitHead, isDigitCh]
        | econs v2 tl2 => simp [serElemsTail, nonDigitHead, isDigitCh]
      have hv : pVal f (serVal v ++ (serElemsTail tl ++ (']' :: t))) =
          some (v, serElemsTail tl ++ (']' :: t)) := by
        apply rtVal v f _ (by omega) hnd
      simp only [pElems]
      rw [hv]
      cases tl with
      | enil => simp [serElemsTail]
      | econs v2 tl2 =>
        have hsplit : serElemsTail (JElems.econs v2 tl2) ++ (']' :: t) =
            ',' :: (serVal v2 ++ (serElemsTail tl2 ++ (']' :: t))) := by
          simp [serElemsTail]
        rw [hsplit]
        simp only [Char.reduceEq, reduceIte]
        have hrec : pElems f (serVal v2 ++ (serElemsTail tl2 ++ (']' :: t))) =
            some (JElems.econs v2 tl2, t) := by
          apply rtElems (JElems.econs v2 tl2) f t v2 tl2 rfl
          simp only [serElemsTail, List.length_cons, List.length_append] at hf2
          omega
        rw [hrec]
theorem rtFields (fs : JFields) : ∀ (fuel : Nat) (t : List Char) (k : String) (v : JVal)
    (tl : JFields),
    fs = JFields.fcons k v tl →
    (serField k v).length + (serFieldsTail tl).length + 1 < fuel →
    pFields fuel (serField k v ++ (serFieldsTail tl ++ (rbrace :: t))) = some (fs, t)
  | fuel, t, k, v, tl, heq, hf => by
    subst heq
    match fuel, hf with
    | f + 1, hf2 =>
      have hklen : k.toList.length < f := by
        have h1 := serStrBody_length_ge k.toList
        rw [serField_head] at hf2
        simp only [List.length_cons, List.length_append] at hf2
        omega
      have hform : serField k v ++ (serFieldsTail tl ++ (rbrace :: t)) =
          '"' :: (serStrBody k.toList ++ ('"' :: (':' ::
            (serVal v ++ (serFieldsTail tl ++ (rbrace :: t)))))) := by
        rw [serField_head]; simp
      rw [hform]
      simp only [pFields]
      simp only [reduceIte]
      rw [pStrBody_ser k.toList f [] _ hklen]
      simp only [List.reverse_nil, List.nil_append, mkToList, reduceIte]
      have hnd : nonDigitHead (serFieldsTail tl ++ (rbrace :: t)) = true := by
        cases tl with
        | fnil => simp [serFieldsTail, nonDigitHead, isDigitCh, rbrace]
        | fcons k2 v2 tl2 => simp [serFieldsTail, nonDigitHead, isDigitCh]
      have hv : pVal f (serVal v ++ (serFieldsTail tl ++ (rbrace :: t))) =
          some (v, serFieldsTail tl ++ (rbrace :: t)) := by
        apply rtVal v f _ ?_ hnd
        rw [serField_head] at hf2
        simp only [List.length_cons, List.length_append] at hf2
        omega
      rw [hv]
      cases tl with
      | fnil =>
        simp [serFieldsTail, rbrace]
      | fcons k2 v2 tl2 =>
        have hsplit : serFieldsTail (JFields.fcons k2 v2 tl2) ++ (rbrace :: t) =
            ',' :: (serField k2 v2 ++ (serFieldsTail tl2 ++ (rbrace :: t))) := by
          simp [serFieldsTail]
        rw [hsplit]
        simp only [Char.reduceEq, reduceIte]
        have hrec : pFields f (serField k2 v2 ++ (serFieldsTail tl2 ++ (rbrace :: t))) =
            some (JFields.fcons k2 v2 tl2, t) := by
          apply rtFields (JFields.fcons k2 v2 tl2) f t k2 v2 tl2 rfl
          simp only [serFieldsTail, List.length_cons, List.length_append] at hf2
          omega
        rw [hrec]
end

/-- Parsing the rendered document recovers the value exactly. -/
theorem jsonParse_serJson (v : JVal) : jsonParse (serJson v) = some v := by
  have h : (serJson v).toList = serVal v := rfl
  unfold jsonParse
  rw [h]
  have hrt := rtVal v ((serVal v).length + 1) [] (by omega) rfl
  rw [List.append_nil] at hrt
  rw [hrt]

/-! ## The webhook payload parser (`WebhooksResource.parse`,
`isValidWebhookEvent`, `normalizeTimestamp`; webhooks.ts lines 200–341) -/

def isWsCh (c : Char) : Bool := c == ' ' || c == '\n' || c == '\t' || c == '\r'

/-- `String.prototype.trim` on the character list. -/
def jsTrimList (cs : List Char) : List Char :=
  ((cs.dropWhile isWsCh).reverse.dropWhile isWsCh).reverse

/-- Modelled fragment of JS `Number()` on a trimmed string: an optional sign
followed by decimal digits; every timestamp instance in the claims is
integral. -/
def jsNumberInt (cs : List Char) : Option Int :=
  match cs with
  | '-' :: rest =>
    if rest ≠ [] ∧ rest.all isDigitCh then some (-(decDigitsVal rest : Int)) else none
  | '+' :: rest =>
    if rest ≠ [] ∧ rest.all isDigitCh then some ((decDigitsVal rest : Int)) else none
  | _ => if cs ≠ [] ∧ cs.all isDigitCh then some ((decDigitsVal cs : Int)) else none

/-- `normalizeTimestamp` (webhooks.ts lines 329–340): a finite number stays;
a non-blank string is coerced with `Number()`; everything else is `null`. -/
def normalizeTimestamp : Option JVal → Option Int
  | some (.jnum n) => some n
  | some (.jstr s) =>
    if jsTrimList s.toList = [] then none else jsNumberInt (jsTrimList s.toList)
  | _ => none

def knownEventNames : List String :=
  ["alert.triggered", "alert.paused", "alert.activated", "alert.deleted", "alert.created"]

def isStrProp (d : JVal) (k : String) : Bool :=
  match jprop d k with
  | some (.jstr _) => true
  | _ => false

/-- `x !== undefined && x !== null && typeof x !== 'number'` fails the
check; absent, null, and numeric values pass. -/
def optNumProp (d : JVal) (k : String) : Bool :=
  match jprop d k with
  | none => true
  | some .jnull => true
  | some (.jnum _) => true
  | _ => false

def optStrProp (d : JVal) (k : String) : Bool :=
  match jprop d k with
  | none => true
  | some .jnull => true
  | some (.jstr _) => true
  | _ => false

/-- The event-name membership test (line 274). -/
def eventNameOk : Option JVal → Bool
  | some (.jstr ev) => knownEventNames.contains ev
  | _ => false

/-- The `data` block checks (webhooks.ts lines 284–326). -/
def validDataBlock (p : JVal) : Bool :=
  match jprop p "data" with
  | some d =>
    isObjectType d && (isStrProp d "alert_id" && (isStrProp d "symbol" &&
      (isStrProp d "condition" && (isStrProp d "notification" && (isStrProp d "status" &&
      (optNumProp d "threshold" && (optStrProp d "triggered_at" && optNumProp d "price")))))))
  | none => false

/-- `isValidWebhookEvent` with its observable side effect: the checks run in
source order, and the timestamp is overwritten in place (line 282) before the
`data` checks run; the returned value is the (possibly mutated) input. -/
def isValidWebhookEvent (p : JVal) : Bool × JVal :=
  if isObjectType p = false then (false, p)
  else if (isStrProp p "id" && isStrProp p "event") = false then (false, p)
  else if eventNameOk (jprop p "event") = false then (false, p)
  else
    match normalizeTimestamp (jprop p "timestamp") with
    | none => (false, p)
    | some ts =>
      let p2 := jsetProp p "timestamp" (.jnum ts)
      (validDataBlock p2, p2)

/-- `parse` on an already-decoded value (the object overload). -/
def parseWebhookObject (v : JVal) : Except SdkError JVal :=
  match isValidWebhookEvent v with
  | (true, v2) => .ok v2
  | (false, _) => .error (.validationError "Invalid webhook payload structure")

/-- `parse` on a string (or UTF-8 Buffer) payload: `JSON.parse`, then
structural validation. -/
def parseWebhookString (s : String) : Except SdkError JVal :=
  match jsonParse s with
  | none => .error (.validationError "Invalid JSON payload")
  | some v => parseWebhookObject v

/-- Modelled from the spec (§4.4): the declarative schema of a webhook event
- an object with string `id`, recognized `event` name, a timestamp that is
numeric or a numeric string, and a `data` object with the five required
string fields and three optional typed fields.  Used to check the
implementation's validator against the spec's schema. -/
def schemaWebhookEvent (v : JVal) : Bool :=
  match v with
  | .jobj _ =>
    isStrProp v "id" && (eventNameOk (jprop v "event") &&
      ((normalizeTimestamp (jprop v "timestamp")).isSome && validDataBlock v))
  | _ => false

/-! ### Frame lemmas for the in-place timestamp write -/

theorem getField_setField_self : ∀ (fs : JFields) (k : String) (v : JVal),
    getField (setField fs k v) k = some v
  | .fnil, k, v => by simp [setField, getField]
  | .fcons k0 w rest, k, v => by
    by_cases h : k0 = k
    · subst h
      simp [setField, getField]
    · simp [setField, getField, h, getField_setField_self rest k v]

theorem getField_setField_ne : ∀ (fs : JFields) (k k2 : String) (v : JVal), k2 ≠ k →
    getField (setField fs k v) k2 = getField fs k2
  | .fnil, k, k2, v, h => by simp [setField, getField, Ne.symm h]
  | .fcons k0 w rest, k, k2, v, h => by
    by_cases h0 : k0 = k
    · subst h0
      simp [setField, getField, Ne.symm h]
    · by_cases h2 : k0 = k2
      · subst h2
        simp [setField, getField, h0]
      · simp [setField, getField, h0, h2, getField_setField_ne rest k k2 v h]

theorem jprop_jsetProp_ne (p : JVal) (k k2 : String) (v : JVal) (h : k2 ≠ k) :
    jprop (jsetProp p k v) k2 = jprop p k2 := by
  cases p <;> simp [jprop, jsetProp]
  exact getField_setField_ne _ k k2 v h

theorem jprop_jsetProp_self (fs : JFields) (k : String) (v : JVal) :
    jprop (jsetProp (.jobj fs) k v) k = some v := by
  simp [jprop, jsetProp, getField_setField_self]

theorem isObjectType_jsetProp (p : JVal) (k : String) (v : JVal) :
    isObjectType (jsetProp p k v) = isObjectType p := by
  cases p <;> simp [jsetProp, isObjectType]

/-! ### The validator agrees with the spec's §4.4 schema -/

theorem eventNameOk_str (v : JVal) (k : String) (h : eventNameOk (jprop v k) = true) :
    isStrProp v k = true := by
  cases hj : jprop v k with
  | none => simp [eventNameOk, hj] at h
  | some w =>
    cases w with
    | jstr s => simp [isStrProp, hj]
    | jnull => simp [eventNameOk, hj] at h
    | jbool b => simp [eventNameOk, hj] at h
    | jnum n => simp [eventNameOk, hj] at h
    | jarr es => simp [eventNameOk, hj] at h
    | jobj fs => simp [eventNameOk, hj] at h

/-- The imperative validator accepts exactly the §4.4 schema: ordering and
the early timestamp write do not change the accepted set. -/
theorem validator_eq_schema (v : JVal) : (isValidWebhookEvent v).1 = schemaWebhookEvent v := by
  cases v with
  | jnull => simp [isValidWebhookEvent, schemaWebhookEvent, isObjectType]
  | jbool b => simp [isValidWebhookEvent, schemaWebhookEvent, isObjectType]
  | jnum n => simp [isValidWebhookEvent, schemaWebhookEvent, isObjectType]
  | jstr s => simp [isValidWebhookEvent, schemaWebhookEvent, isObjectType]
  | jarr es =>
    unfold isValidWebhookEvent schemaWebhookEvent
    rw [if_neg (by simp [isObjectType])]
    rw [if_pos (by simp [isStrProp, jprop])]
  | jobj fs =>
    unfold isValidWebhookEvent schemaWebhookEvent
    rw [if_neg (by simp [isObjectType])]
    cases hid : isStrProp (JVal.jobj fs) "id" with
    | false =>
      rw [if_pos (by simp [hid])]
      simp [hid]
    | true =>
      cases hev : eventNameOk (jprop (JVal.jobj fs) "event") with
      | false =>
        cases hevs : isStrProp (JVal.jobj fs) "event" with
        | false =>
          rw [if_pos (by simp [hid, hevs])]
          simp [hid, hev]
        | true =>
          rw [if_neg (by simp [hid, hevs])]
          rw [if_pos (by simp [hev])]
          simp [hid, hev]
      | true =>
        have hevs : isStrProp (JVal.jobj fs) "event" = true :=
          eventNameOk_str (JVal.jobj fs) "event" hev
        rw [if_neg (by simp [hid, hevs])]
        rw [if_neg (by simp [hev])]
        cases hts : normalizeTimestamp (jprop (JVal.jobj fs) "timestamp") with
        | none => simp [hid, hev, hts]
        | some ts =>
          have hdata : validDataBlock (jsetProp (JVal.jobj fs) "timestamp" (.jnum ts)) =
              validDataBlock (JVal.jobj fs) := by
            unfold validDataBlock
            rw [jprop_jsetProp_ne _ _ _ _ (by decide)]
          simp [hid, hev, hts, hdata]

/-- The accepting validator returns the input with the timestamp overwritten
in place by its normalized numeric value. -/
theorem validator_true_shape (v : JVal) (n : Int)
    (hts : normalizeTimestamp (jprop v "timestamp") = some n)
    (hok : (isValidWebhookEvent v).1 = true) :
    isValidWebhookEvent v = (true, jsetProp v "timestamp" (.jnum n)) := by
  unfold isValidWebhookEvent at hok ⊢
  by_cases h1 : isObjectType v = false
  · rw [if_pos h1] at hok
    simp at hok
  · rw [if_neg h1] at hok ⊢
    by_cases h2 : (isStrProp v "id" && isStrProp v "event") = false
    · rw [if_pos h2] at hok
      simp at hok
    · rw [if_neg h2] at hok ⊢
      by_cases h3 : eventNameOk (jprop v "event") = false
      · rw [if_pos h3] at hok
        simp at hok
      · rw [if_neg h3] at hok ⊢
        rw [hts] at hok ⊢
        simp only at hok ⊢
        rw [hok]

/-! ### Claim theorems for the webhook payload parser (C5, C6, C10) -/

/-- C6: `parse` rejects every malformed or structurally invalid payload with
`ValidationError` and its one generic message per failure class — malformed
JSON with "Invalid JSON payload", any value outside the §4.4 schema with
"Invalid webhook payload structure" — and never returns a partial object. -/
theorem parse_rejects_invalid :
    (∀ s : String, jsonParse s = none →
      parseWebhookString s = .error (.validationError "Invalid JSON payload")) ∧
    (∀ v : JVal, schemaWebhookEvent v = false →
      parseWebhookObject v = .error (.validationError "Invalid webhook payload structure")) := by
  constructor
  · intro s hs
    simp [parseWebhookString, hs]
  · intro v hv
    have h := validator_eq_schema v
    rw [hv] at h
    unfold parseWebhookObject
    rcases hiv : isValidWebhookEvent v with ⟨b, v2⟩
    rw [hiv] at h
    simp only at h
    rw [h]

/-- C6 witness: a string that is not JSON, and a decoded value outside the
schema, each rejected with the claimed message. -/
theorem parse_rejects_invalid_witness :
    jsonParse "not json" = none ∧
    parseWebhookString "not json" = .error (.validationError "Invalid JSON payload") ∧
    schemaWebhookEvent (JVal.jobj (JFields.fcons "id" (JVal.jstr "x") JFields.fnil)) = false ∧
    parseWebhookObject (JVal.jobj (JFields.fcons "id" (JVal.jstr "x") JFields.fnil)) =
      .error (.validationError "Invalid webhook payload structure") :=
  ⟨rfl, parse_rejects_invalid.1 "not json" rfl,
    by simp [schemaWebhookEvent, eventNameOk, jprop, getField],
    parse_rejects_invalid.2 _ (by simp [schemaWebhookEvent, eventNameOk, jprop, getField])⟩

/-- C5: parsing the JSON serialization of any event matching the §4.4 schema
returns the event unchanged except that its timestamp is normalized to the
number the wire form denotes. -/
theorem parse_serialized_roundtrip (v : JVal) (n : Int)
    (hschema : schemaWebhookEvent v = true)
    (hts : normalizeTimestamp (jprop v "timestamp") = some n) :
    parseWebhookString (serJson v) = .ok (jsetProp v "timestamp" (.jnum n)) := by
  have hok : (isValidWebhookEvent v).1 = true := by
    rw [validator_eq_schema v, hschema]
  unfold parseWebhookString
  rw [jsonParse_serJson]
  show parseWebhookObject v = .ok (jsetProp v "timestamp" (.jnum n))
  unfold parseWebhookObject
  rw [validator_true_shape v n hts hok]

def sampleEventData : JFields :=
  .fcons "alert_id" (.jstr "a-1") (.fcons "symbol" (.jstr "AAPL")
    (.fcons "condition" (.jstr "price_above") (.fcons "notification" (.jstr "email")
      (.fcons "status" (.jstr "triggered") .fnil))))

/-- A schema-conforming event whose wire timestamp is the numeric string
`"1700000000000"`. -/
def sampleEvent : JVal :=
  .jobj (.fcons "id" (.jstr "evt_1") (.fcons "event" (.jstr "alert.triggered")
    (.fcons "timestamp" (.jstr "1700000000000")
      (.fcons "data" (.jobj sampleEventData) .fnil))))

/-- C5 witness: the round-trip theorem at a concrete event; the string
timestamp `"1700000000000"` parses to the numeric `1700000000000`. -/
theorem parse_serialized_roundtrip_witness :
    schemaWebhookEvent sampleEvent = true ∧
    normalizeTimestamp (jprop sampleEvent "timestamp") = some 1700000000000 ∧
    parseWebhookString (serJson sampleEvent) =
      .ok (jsetProp sampleEvent "timestamp" (.jnum 1700000000000)) :=
  ⟨by decide, by decide,
    parse_serialized_roundtrip sampleEvent 1700000000000 (by decide) (by decide)⟩

/-- C10: on an already-decoded object with a numeric-string timestamp,
successful parsing returns the input object itself with only the timestamp
field overwritten in place by the normalized number — every other property
(on the object and inside it) is untouched. -/
theorem parse_overwrites_timestamp_in_place (v : JVal) (s : String) (n : Int) (fs : JFields)
    (hv : v = .jobj fs)
    (_hts2 : jprop v "timestamp" = some (.jstr s))
    (hn : normalizeTimestamp (jprop v "timestamp") = some n)
    (hok : (isValidWebhookEvent v).1 = true) :
    parseWebhookObject v = .ok (jsetProp v "timestamp" (.jnum n)) ∧
    jprop (jsetProp v "timestamp" (.jnum n)) "timestamp" = some (.jnum n) ∧
    (∀ k, k ≠ "timestamp" → jprop (jsetProp v "timestamp" (.jnum n)) k = jprop v k) := by
  refine ⟨?_, ?_, ?_⟩
  · unfold parseWebhookObject
    rw [validator_true_shape v n hn hok]
  · rw [hv]
    exact jprop_jsetProp_self fs "timestamp" (.jnum n)
  · intro k hk
    exact jprop_jsetProp_ne v "timestamp" k (.jnum n) hk

/-- C10 witness: the mutation theorem at the concrete sample event. -/
theorem parse_overwrites_timestamp_in_place_witness :
    jprop sampleEvent "timestamp" = some (.jstr "1700000000000") ∧
    (isValidWebhookEvent sampleEvent).1 = true ∧
    parseWebhookObject sampleEvent =
      .ok (jsetProp sampleEvent "timestamp" (.jnum 1700000000000)) ∧
    jprop (jsetProp sampleEvent "timestamp" (.jnum 1700000000000)) "id" =
      some (.jstr "evt_1") :=
  ⟨rfl, by decide,
    (parse_overwrites_timestamp_in_place sampleEvent "1700000000000" 1700000000000 _
      rfl rfl rfl (by decide)).1,
    rfl⟩

end StockAlertSdk
